import Mathlib

/-!
# Verification of the Sunny communication core

Shallow embedding of the communication substrate of the Sunny repository:
the OSC wire codec (`WPOSC001A`), the SPSC ring buffer (`RTLF001A`), the
TCP transport receive/reconnect logic (`INTP001A`), the session state
machine (`INSM001A`) and the LOM bridge protocol (`INBR001A`).

Pure functions from the C++ source are translated into executable Lean
definitions; stateful classes become structures with explicit state
passing. Machine integers are modelled as `Nat`/`Int` with explicit
two's-complement reduction where the C++ code relies on wrap-around.
-/

namespace Sunny

/-! ## Transport reconnect backoff (INTP001A.cpp, TcpTransport::reconnect_loop)

The reconnect loop starts at `delay_ms = config_.retry_delay_ms` and after
each failed attempt performs `delay_ms = std::min(delay_ms * 2,
config_.max_retry_delay_ms)`.  `backoff init maxd n` is the delay used for
the (n+1)-th reconnect attempt. -/

def backoff (init maxd : Nat) : Nat → Nat
  | 0 => init
  | n + 1 => min (backoff init maxd n * 2) maxd

/-! ## Transport receive loop (INTP001A.cpp, TcpTransport::receive_loop)

One iteration of the receive loop, as a function of the environment's
behaviour during that iteration (poll result, header/payload recv
results).  The loop body either continues, breaks out of the loop after
setting a state, or returns after spawning the reconnect thread. -/

inductive TransportState
  | Disconnected | Connecting | Connected | Reconnecting | Error
  deriving DecidableEq, Repr

/-- What the socket environment does during one receive-loop iteration. -/
inductive RecvInput
  /-- `poll()` returned a negative value; `eintr` records `errno == EINTR`. -/
  | pollFailed (eintr : Bool)
  /-- `poll()` timed out (returned 0). -/
  | pollTimeout
  /-- `POLLERR | POLLHUP | POLLNVAL` was reported. -/
  | hangup
  /-- reading the 4-byte length header with `recv_exact` failed. -/
  | headerFail
  /-- a header with value `len` was read; `payloadOk` tells whether the
      subsequent `recv_exact` of the payload would succeed. -/
  | frame (len : Nat) (payloadOk : Bool)
  deriving DecidableEq, Repr

/-- Observable outcome of one receive-loop iteration. -/
structure RecvOutcome where
  /-- state set via `set_state` during the iteration (`none` = untouched). -/
  stateSet : Option TransportState
  /-- whether the iteration spawned `reconnect_loop` on `reconnect_thread_`. -/
  reconnectStarted : Bool
  /-- whether the iteration attempted to read the frame payload. -/
  payloadReadAttempted : Bool
  /-- whether the iteration terminates the receive loop. -/
  exitsLoop : Bool
  deriving DecidableEq, Repr

def receive_iteration : RecvInput → RecvOutcome
  | .pollFailed true => ⟨none, false, false, false⟩
  | .pollFailed false => ⟨some .Error, false, false, true⟩
  | .pollTimeout => ⟨none, false, false, false⟩
  | .hangup => ⟨some .Error, true, false, true⟩
  | .headerFail => ⟨some .Error, true, false, true⟩
  | .frame len payloadOk =>
      if len > 1024 * 1024 then
        ⟨some .Error, false, false, true⟩
      else if payloadOk then
        ⟨none, false, true, false⟩
      else
        ⟨some .Error, true, true, true⟩

/-! ## Session state machine (INSM001A.cpp / INSM001A.h)

Observers are modelled by identifiers; an operation returns the updated
machine together with the list of `(observer, snapshot)` notifications it
delivered, in registration order. -/

inductive ConnectionState
  | Disconnected | Connecting | Connected | Reconnecting | Error
  deriving DecidableEq, Repr

inductive SessionMode
  | Idle | Playing | Recording | Overdubbing
  deriving DecidableEq, Repr

def ConnectionState.to_string : ConnectionState → String
  | .Disconnected => "disconnected"
  | .Connecting => "connecting"
  | .Connected => "connected"
  | .Reconnecting => "reconnecting"
  | .Error => "error"

def SessionMode.to_string : SessionMode → String
  | .Idle => "idle"
  | .Playing => "playing"
  | .Recording => "recording"
  | .Overdubbing => "overdubbing"

structure SessionStateChange where
  old_connection : ConnectionState
  new_connection : ConnectionState
  old_mode : SessionMode
  new_mode : SessionMode
  message : String
  deriving DecidableEq, Repr

structure SessionStateMachine where
  connection_state : ConnectionState
  mode : SessionMode
  observers : List Nat
  deriving DecidableEq, Repr

def SessionStateMachine.init : SessionStateMachine :=
  ⟨.Disconnected, .Idle, []⟩

def SessionStateMachine.notify_observers (m : SessionStateMachine)
    (change : SessionStateChange) : List (Nat × SessionStateChange) :=
  m.observers.map fun o => (o, change)

def SessionStateMachine.set_connected (m : SessionStateMachine) :
    SessionStateMachine × List (Nat × SessionStateChange) :=
  if m.connection_state = .Connected then (m, [])
  else
    let change : SessionStateChange :=
      ⟨m.connection_state, .Connected, m.mode, m.mode, "Connected to Ableton Live"⟩
    ({ m with connection_state := .Connected }, m.notify_observers change)

def SessionStateMachine.set_disconnected (m : SessionStateMachine)
    (reason : String) : SessionStateMachine × List (Nat × SessionStateChange) :=
  if m.connection_state = .Disconnected then (m, [])
  else
    let change : SessionStateChange :=
      ⟨m.connection_state, .Disconnected, m.mode, .Idle,
        if reason = "" then "Disconnected" else reason⟩
    ({ m with connection_state := .Disconnected, mode := .Idle },
      m.notify_observers change)

def SessionStateMachine.set_connecting (m : SessionStateMachine) :
    SessionStateMachine × List (Nat × SessionStateChange) :=
  let change : SessionStateChange :=
    ⟨m.connection_state, .Connecting, m.mode, m.mode, "Connecting..."⟩
  ({ m with connection_state := .Connecting }, m.notify_observers change)

def SessionStateMachine.set_error (m : SessionStateMachine)
    (error : String) : SessionStateMachine × List (Nat × SessionStateChange) :=
  let change : SessionStateChange :=
    ⟨m.connection_state, .Error, m.mode, .Idle, error⟩
  ({ m with connection_state := .Error, mode := .Idle },
    m.notify_observers change)

def SessionStateMachine.set_mode (m : SessionStateMachine)
    (mode : SessionMode) : SessionStateMachine × List (Nat × SessionStateChange) :=
  if m.mode = mode then (m, [])
  else
    let change : SessionStateChange :=
      ⟨m.connection_state, m.connection_state, m.mode, mode,
        "Mode changed to " ++ mode.to_string⟩
    ({ m with mode := mode }, m.notify_observers change)

def SessionStateMachine.start_playing (m : SessionStateMachine) :=
  m.set_mode .Playing

def SessionStateMachine.stop_playing (m : SessionStateMachine) :=
  m.set_mode .Idle

def SessionStateMachine.start_recording (m : SessionStateMachine) :=
  m.set_mode .Recording

def SessionStateMachine.stop_recording (m : SessionStateMachine) :=
  m.set_mode .Playing

/-! ## LOM bridge protocol (INBR001A.cpp / INBR001A.h)

`LomPath` strings are modelled as `List Char`. `LomPath::parse` runs
`std::getline(iss, segment, '/')` in a loop, keeping non-empty segments;
`getlineSplit` models the `getline` loop (each call consumes up to and
including the next delimiter and fails only at end of input). -/

structure LomPath where
  segments : List (List Char)
  deriving DecidableEq, Repr

/-- The `while (std::getline(iss, segment, '/'))` loop: on empty input the
read fails and the loop ends; otherwise one segment (up to the next `/`,
delimiter consumed) is produced per iteration. -/
def getlineSplit (cs : List Char) : List (List Char) :=
  if h : cs = [] then []
  else
    let seg := cs.takeWhile (· ≠ '/')
    seg :: getlineSplit (cs.drop (seg.length + 1))
termination_by cs.length
decreasing_by
  simp only [List.length_drop]
  have : 0 < cs.length := List.length_pos.mpr h
  omega

/-- The serialisation loop of `LomPath::to_string`: every segment after
the first is preceded by a `/`. -/
def joinSegs : List (List Char) → List Char
  | [] => []
  | [s] => s
  | s :: s2 :: rest => s ++ '/' :: joinSegs (s2 :: rest)

def LomPath.to_string (p : LomPath) : List Char :=
  joinSegs p.segments

def LomPath.parse (path : List Char) : LomPath :=
  ⟨(getlineSplit path).filter (· ≠ [])⟩

/-! ### Bridge JSON deserialisation (LomProtocol::deserialize_response)

The nlohmann JSON value is modelled by `JVal`; C++ `double` payloads are
carried as `Rat` (no floating-point arithmetic is performed on them, they
are pass-through). `get<T>()` conversions that can throw
`nlohmann::json::type_error` are modelled in the `Except String` monad;
an `Except.error` models an exception propagating out of the function.
`deserialize_response` receives the result of `json::parse` (`none`
models a `json::parse_error`, which the C++ code catches). -/

inductive JVal
  | null
  | bool (b : Bool)
  | intNum (n : Int)
  | floatNum (q : Rat)
  | str (s : String)
  | arr (elems : List JVal)
  | obj (fields : List (String × JVal))
  deriving Repr

/-- `j.contains(key) ? some j[key] : none` — `contains` is false on
non-objects. -/
def JVal.find? (j : JVal) (key : String) : Option JVal :=
  match j with
  | .obj fields => (fields.find? (fun f => f.1 = key)).map (·.2)
  | _ => none

inductive LomValue
  | bool (b : Bool)
  | int (n : Int)
  | double (q : Rat)
  | str (s : String)
  | vecInt (l : List Int)
  | vecDouble (l : List Rat)
  | vecStr (l : List String)
  deriving DecidableEq, Repr

/-- nlohmann `from_json` into an integer: any JSON number is
`static_cast` (truncation toward zero for floats); every other type
throws `type_error.302`. -/
def jsonGetInt : JVal → Except String Int
  | .intNum n => .ok n
  | .floatNum q => .ok (q.num / (q.den : Int))
  | _ => .error "type_error.302: type must be number"

/-- nlohmann `from_json` into a double: any JSON number converts; every
other type throws `type_error.302`. -/
def jsonGetDouble : JVal → Except String Rat
  | .intNum n => .ok (n : Rat)
  | .floatNum q => .ok q
  | _ => .error "type_error.302: type must be number"

/-- nlohmann `from_json` into a string: only a JSON string converts. -/
def jsonGetString : JVal → Except String String
  | .str s => .ok s
  | _ => .error "type_error.302: type must be string"

/-- `j.get<std::vector<T>>()`: element-wise conversion, throwing on the
first element of the wrong type. -/
def jsonGetVec {α : Type} (elemGet : JVal → Except String α) :
    JVal → Except String (List α)
  | .arr elems => elems.mapM elemGet
  | _ => .error "type_error.302: type must be array"

/-- `json_to_lom_value` (INBR001A.cpp): dispatch on the JSON type, with
homogeneous-array detection via the first element; anything else falls
back to an empty string. -/
def json_to_lom_value (j : JVal) : Except String LomValue :=
  match j with
  | .bool b => .ok (.bool b)
  | .intNum n => .ok (.int n)
  | .floatNum q => .ok (.double q)
  | .str s => .ok (.str s)
  | .arr (e :: es) =>
    match e with
    | .intNum _ => (jsonGetVec jsonGetInt (.arr (e :: es))).map .vecInt
    | .floatNum _ => (jsonGetVec jsonGetDouble (.arr (e :: es))).map .vecDouble
    | .str _ => (jsonGetVec jsonGetString (.arr (e :: es))).map .vecStr
    | _ => .ok (.str "")
  | _ => .ok (.str "")

structure LomResponse where
  success : Bool
  value : Option LomValue
  error : Option String
  callback_id : Option String
  deriving DecidableEq, Repr

/-- `LomProtocol::deserialize_response`, after JSON parsing: `parsed =
none` models a `json::parse_error` (caught, yielding `nullopt`); an
`Except.error` result models an uncaught exception escaping to the
caller. -/
def deserialize_response (parsed : Option JVal) :
    Except String (Option LomResponse) :=
  match parsed with
  | none => .ok none
  | some j => do
    let success : Bool :=
      match j.find? "success" with
      | some (.bool b) => b
      | _ => false
    let value : Option LomValue ←
      match j.find? "value" with
      | some v =>
        match v with
        | .null => pure none
        | _ => (json_to_lom_value v).map some
      | none => pure none
    let error : Option String :=
      match j.find? "error" with
      | some (.str s) => some s
      | _ => none
    let callback_id : Option String :=
      match j.find? "callback_id" with
      | some (.str s) => some s
      | _ => none
    pure (some ⟨success, value, error, callback_id⟩)

/-! ## SPSC ring buffer (RTLF001A.h, SpscRingBuffer)

The buffer array is a list of length `cap`; the monotone `size_t` cursors
become `Nat` (for the sequential uses proved here `read_pos ≤ write_pos`
always holds, so the `size_t` wrap-around subtraction agrees with `Nat`
subtraction).  `Capacity` is a power of two in the source, so `w & mask_`
with `mask_ = Capacity - 1` is `w % Capacity`; the embedding uses `%`,
which is what the mask computes. -/

structure Spsc (α : Type) (cap : Nat) where
  buffer : List α
  write_pos : Nat
  read_pos : Nat
  deriving DecidableEq, Repr

variable {α : Type} {cap : Nat}

/-- `std::array<T, Capacity> buffer_{}` value-initialises the storage. -/
def Spsc.init (α : Type) [Inhabited α] (cap : Nat) : Spsc α cap :=
  ⟨List.replicate cap default, 0, 0⟩

def Spsc.try_push [Inhabited α] (s : Spsc α cap) (item : α) :
    Bool × Spsc α cap :=
  let w := s.write_pos
  let r := s.read_pos
  if cap ≤ w - r then (false, s)  -- full
  else (true, { s with buffer := s.buffer.set (w % cap) item,
                       write_pos := w + 1 })

def Spsc.try_pop [Inhabited α] (s : Spsc α cap) :
    Option α × Spsc α cap :=
  let r := s.read_pos
  let w := s.write_pos
  if r = w then (none, s)  -- empty
  else (some (s.buffer.getD (r % cap) default),
        { s with read_pos := r + 1 })

def Spsc.size (s : Spsc α cap) : Nat := s.write_pos - s.read_pos

/-- The abstract queue contents, oldest first. -/
def Spsc.toList [Inhabited α] (s : Spsc α cap) : List α :=
  (List.range s.size).map fun i => s.buffer.getD ((s.read_pos + i) % cap) default

/-- A sequential producer/consumer script. -/
inductive SpscOp (α : Type)
  | push (x : α)
  | pop
  deriving DecidableEq, Repr

def Spsc.step [Inhabited α] (s : Spsc α cap) : SpscOp α → Spsc α cap
  | .push x => (s.try_push x).2
  | .pop => (s.try_pop).2

def Spsc.run [Inhabited α] (s : Spsc α cap) (ops : List (SpscOp α)) :
    Spsc α cap :=
  ops.foldl Spsc.step s

/-- Reference FIFO queue with the same capacity discipline. -/
def queueStep (cap : Nat) (q : List α) : SpscOp α → List α
  | .push x => if q.length = cap then q else q ++ [x]
  | .pop => q.drop 1

def queueRun (cap : Nat) (q : List α) (ops : List (SpscOp α)) : List α :=
  ops.foldl (queueStep cap) q

/-! ## OSC wire codec (WPOSC001A.cpp / WPOSC001A.h)

Bytes are `Nat` values (`< 256` for genuine byte strings).  `float`
arguments are carried as their 32-bit IEEE-754 pattern (a `Nat < 2^32`):
the codec moves the pattern through `memcpy` and shifts only, performing
no floating-point arithmetic.  `std::int32_t` values are `Int` with
explicit two's-complement reduction mod `2^32`.  The writer's output
buffer is modelled by the list of bytes written so far (`data`, with
`write_pos_ = data.length`) plus the buffer capacity. -/

/-- `OSC_MAX_ARGS` (WPOSC001A.h). -/
def OSC_MAX_ARGS : Nat := 64

/-- The writer's deferred `ArgEntry` tagged union / the reader's
`OscArgument` variant. -/
inductive OscArg
  | i (v : Int)          -- tag 'i', `int_val`
  | f (bits : Nat)       -- tag 'f', `float_val` as its IEEE-754 bit pattern
  | s (str : List Nat)   -- tag 's', `str_val`
  | b (blob : List Nat)  -- tag 'b', `blob_val`
  deriving DecidableEq, Repr

/-- The type-tag character stored in `ArgEntry::tag` ('i' = 105,
'f' = 102, 's' = 115, 'b' = 98). -/
def OscArg.tagChar : OscArg → Nat
  | .i _ => 105
  | .f _ => 102
  | .s _ => 115
  | .b _ => 98

/-- `align4(pos) = (pos + 3) & ~3` — rounding up to a multiple of 4,
written arithmetically. -/
def align4 (pos : Nat) : Nat := (pos + 3) / 4 * 4

/-- Big-endian bytes of a 32-bit word (`(bits >> 24) & 0xFF`, …). -/
def word32Bytes (bits : Nat) : List Nat :=
  [bits / 16777216 % 256, bits / 65536 % 256, bits / 256 % 256, bits % 256]

/-- Big-endian bytes of an `int32`: the arithmetic shifts plus `& 0xFF`
in `write_int32_be` extract the bytes of the two's-complement pattern
`v mod 2^32`. -/
def int32Bytes (v : Int) : List Nat :=
  word32Bytes (v % 4294967296).toNat

/-- Bytes appended by `write_padded_string`: the string, a null
terminator and zero padding up to `align4(len + 1)`. -/
def padString (s : List Nat) : List Nat :=
  s ++ List.replicate (align4 (s.length + 1) - s.length) 0

/-- Bytes appended for a blob body: the data zero-padded to
`align4(len)`. -/
def padBlob (b : List Nat) : List Nat :=
  b ++ List.replicate (align4 b.length - b.length) 0

structure OscWriter where
  capacity : Nat         -- `buffer_.size()`
  data : List Nat        -- bytes written; `write_pos_ = data.length`
  args : List OscArg     -- staged arguments; `arg_count_ = args.length`
  address : List Nat     -- `address_`
  error : Bool           -- `error_`
  message_started : Bool -- `message_started_`
  message_ended : Bool   -- `message_ended_`
  deriving DecidableEq, Repr

def OscWriter.init (cap : Nat) : OscWriter :=
  ⟨cap, [], [], [], false, false, false⟩

def OscWriter.has_space (w : OscWriter) (bytes : Nat) : Bool :=
  w.data.length + bytes ≤ w.capacity

def OscWriter.begin_message (w : OscWriter) (address : List Nat) : OscWriter :=
  if w.message_started then { w with error := true }
  else if address = [] ∨ address.head? ≠ some 47 then { w with error := true }
  else { w with message_started := true, data := [], args := [],
                address := address }

/-- Shared body of `add_int32` / `add_float32` / `add_string` /
`add_blob` (the four members are textually identical up to the stored
field). -/
def OscWriter.add_arg (w : OscWriter) (a : OscArg) : OscWriter :=
  if w.error ∨ ¬w.message_started ∨ w.message_ended then { w with error := true }
  else if OSC_MAX_ARGS ≤ w.args.length then { w with error := true }
  else { w with args := w.args ++ [a] }

def OscWriter.add_int32 (w : OscWriter) (v : Int) : OscWriter :=
  w.add_arg (.i v)

def OscWriter.add_float32 (w : OscWriter) (bits : Nat) : OscWriter :=
  w.add_arg (.f bits)

def OscWriter.add_string (w : OscWriter) (s : List Nat) : OscWriter :=
  w.add_arg (.s s)

def OscWriter.add_blob (w : OscWriter) (b : List Nat) : OscWriter :=
  w.add_arg (.b b)

def OscWriter.write_padded_string (w : OscWriter) (s : List Nat) : OscWriter :=
  if w.has_space (align4 (s.length + 1)) then
    { w with data := w.data ++ padString s }
  else { w with error := true }

def OscWriter.write_int32_be (w : OscWriter) (v : Int) : OscWriter :=
  if w.has_space 4 then { w with data := w.data ++ int32Bytes v }
  else { w with error := true }

def OscWriter.write_float32_be (w : OscWriter) (bits : Nat) : OscWriter :=
  if w.has_space 4 then { w with data := w.data ++ word32Bytes bits }
  else { w with error := true }

/-- One iteration of the argument-serialisation loop in `end_message`.
For a blob, `static_cast<std::int32_t>(size)` is the two's-complement
reinterpretation of the `size_t` length, and the body is zero-padded to
4-byte alignment. -/
def OscWriter.writeArg (w : OscWriter) (a : OscArg) : OscWriter :=
  match a with
  | .i v => w.write_int32_be v
  | .f bits => w.write_float32_be bits
  | .s str => w.write_padded_string str
  | .b blob =>
    let w2 := w.write_int32_be (Int.ofNat blob.length)
    if w2.error then w2
    else if w2.has_space (align4 blob.length) then
      { w2 with data := w2.data ++ padBlob blob }
    else { w2 with error := true }

/-- The `for` loop over `args_` in `end_message` (`if (error_) return`
after each argument). -/
def OscWriter.writeArgs (w : OscWriter) : List OscArg → OscWriter
  | [] => w
  | a :: rest =>
    let w2 := w.writeArg a
    if w2.error then w2 else w2.writeArgs rest

/-- The OSC type-tag string: `,` followed by one tag character per
argument. -/
def typeTagString (args : List OscArg) : List Nat :=
  44 :: args.map OscArg.tagChar

def OscWriter.end_message (w : OscWriter) : OscWriter :=
  if w.error ∨ ¬w.message_started ∨ w.message_ended then { w with error := true }
  else
    let w1 := w.write_padded_string w.address
    if w1.error then w1
    else
      -- type tag string: "," + one char per argument + null + padding;
      -- same byte layout and space check as write_padded_string
      let w2 := w1.write_padded_string (typeTagString w.args)
      if w2.error then w2
      else
        let w3 := w2.writeArgs w.args
        if w3.error then w3 else { w3 with message_ended := true }

/-- `packet()`: the written range, empty on error or before
`end_message`. -/
def OscWriter.packet (w : OscWriter) : List Nat :=
  if w.error ∨ ¬w.message_ended then [] else w.data

/-- A client call sequence against the writer. -/
inductive OscOp
  | begin (address : List Nat)
  | addI (v : Int)
  | addF (bits : Nat)
  | addS (s : List Nat)
  | addB (b : List Nat)
  | endMsg
  deriving DecidableEq, Repr

def OscWriter.step (w : OscWriter) : OscOp → OscWriter
  | .begin address => w.begin_message address
  | .addI v => w.add_int32 v
  | .addF bits => w.add_float32 bits
  | .addS s => w.add_string s
  | .addB b => w.add_blob b
  | .endMsg => w.end_message

def OscWriter.run (w : OscWriter) (ops : List OscOp) : OscWriter :=
  ops.foldl OscWriter.step w

/-- The `add_*` call used for one argument. -/
def OscArg.op : OscArg → OscOp
  | .i v => .addI v
  | .f bits => .addF bits
  | .s str => .addS str
  | .b blob => .addB blob

/-- The call sequence that encodes one message: `begin_message`, one
`add_*` per argument in order, `end_message`. -/
def oscOps (address : List Nat) (args : List OscArg) : List OscOp :=
  .begin address :: (args.map OscArg.op ++ [.endMsg])

/-! ### OSC reader

The reader walks the packet with a cursor; the embedding consumes the
byte list instead (the remainder is the packet from the cursor on).  The
two presentations decide every packet identically: whenever the cursor
overshoots the packet end by alignment padding, every subsequent read in
both presentations fails. -/

/-- Two's-complement reinterpretation of a 32-bit pattern. -/
def toInt32 (p : Nat) : Int :=
  if p < 2147483648 then (p : Int) else (p : Int) - 4294967296

/-- `read_string`: fails past the end of the packet or when no null
terminator exists; otherwise yields the bytes before the first null and
skips `align4(len + 1)` bytes. -/
def readOscString (bytes : List Nat) : Option (List Nat × List Nat) :=
  if bytes = [] then none
  else
    let s := bytes.takeWhile (· ≠ 0)
    if s.length = bytes.length then none
    else some (s, bytes.drop (align4 (s.length + 1)))

/-- `read_int32`: four big-endian bytes assembled with shifts and
bitwise-or (the or of the disjoint byte fields is their sum), then
reinterpreted as a signed 32-bit value. -/
def readInt32 (bytes : List Nat) : Option (Int × List Nat) :=
  match bytes with
  | b0 :: b1 :: b2 :: b3 :: rest =>
    some (toInt32 (b0 * 16777216 + b1 * 65536 + b2 * 256 + b3), rest)
  | _ => none

/-- `read_float32`: four big-endian bytes reassembled into the IEEE-754
bit pattern (`memcpy` into a `float`; the model keeps the pattern). -/
def readFloat32 (bytes : List Nat) : Option (Nat × List Nat) :=
  match bytes with
  | b0 :: b1 :: b2 :: b3 :: rest =>
    some (b0 * 16777216 + b1 * 65536 + b2 * 256 + b3, rest)
  | _ => none

/-- The argument loop of `OscReader::parse`: one argument per type-tag
character, appended to `arguments_` in order; any unknown tag or failed
read is an error. -/
def parseOscArgs : List Nat → List Nat → List OscArg → Option (List OscArg)
  | [], _, acc => some acc
  | t :: ts, bytes, acc =>
    if t = 105 then  -- 'i'
      match readInt32 bytes with
      | some (v, rest) => parseOscArgs ts rest (acc ++ [.i v])
      | none => none
    else if t = 102 then  -- 'f'
      match readFloat32 bytes with
      | some (bits, rest) => parseOscArgs ts rest (acc ++ [.f bits])
      | none => none
    else if t = 115 then  -- 's'
      match readOscString bytes with
      | some (str, rest) => parseOscArgs ts rest (acc ++ [.s str])
      | none => none
    else if t = 98 then  -- 'b'
      if bytes.length < 4 then none
      else
        match readInt32 bytes with
        | some (sz, rest) =>
          if sz < 0 ∨ rest.length < sz.toNat then none
          else parseOscArgs ts (rest.drop (align4 sz.toNat))
                 (acc ++ [.b (rest.take sz.toNat)])
        | none => none
    else none

/-- `OscReader` construction plus `parse`: `none` models the error flag,
`some (address, args)` a successfully parsed message. -/
def oscRead (packet : List Nat) : Option (List Nat × List OscArg) :=
  if packet = [] then none
  else
    match readOscString packet with
    | none => none
    | some (address, rest) =>
      if address = [] ∨ address.head? ≠ some 47 then none
      else if rest = [] then some (address, [])  -- no type tags: valid, empty
      else
        match readOscString rest with
        | none => none
        | some (type_tag, rest2) =>
          if type_tag.head? = some 44 then
            (parseOscArgs (type_tag.drop 1) rest2 []).map
              fun args => (address, args)
          else none

/-! ### Validity and size of a message -/

/-- Byte validity of an argument: `int32` in range, float pattern 32-bit,
string arguments null-free byte strings, blob length representable as a
non-negative `int32`. -/
def OscArg.ok : OscArg → Bool
  | .i v => decide (-2147483648 ≤ v ∧ v < 2147483648)
  | .f bits => decide (bits < 4294967296)
  | .s str => str.all fun b => b ≠ 0 ∧ b < 256
  | .b blob => (blob.all fun b => b < 256) && decide (blob.length < 2147483648)

/-- The exact number of bytes `end_message` writes for one argument. -/
def OscArg.size : OscArg → Nat
  | .i _ => 4
  | .f _ => 4
  | .s str => align4 (str.length + 1)
  | .b blob => 4 + align4 blob.length

/-- Total serialized size of a message: padded address, padded type-tag
string, argument data. -/
def oscEncodedSize (address : List Nat) (args : List OscArg) : Nat :=
  align4 (address.length + 1) + align4 (args.length + 2) +
    (args.map OscArg.size).sum

/-- The byte image of one argument in the packet. -/
def OscArg.bytes : OscArg → List Nat
  | .i v => int32Bytes v
  | .f bits => word32Bytes bits
  | .s str => padString str
  | .b blob => int32Bytes (Int.ofNat blob.length) ++ padBlob blob

/-- Closed form of a successfully encoded packet. -/
def oscEncodedBytes (address : List Nat) (args : List OscArg) : List Nat :=
  padString address ++ padString (typeTagString args) ++
    (args.map OscArg.bytes).flatten

/-! ## Theorems -/

/-! ### C6: reconnect backoff -/

theorem backoff_le {init maxd : Nat} (h : init ≤ maxd) :
    ∀ n, backoff init maxd n ≤ maxd
  | 0 => h
  | _ + 1 => min_le_right _ _

/-- C6: the reconnect backoff sequence starts at the configured initial
retry delay, never exceeds the configured maximum, is non-decreasing,
doubles (capped at the maximum) after each failed attempt, and with
initial delay 1000 ms and maximum 30000 ms takes the values 1000, 2000,
4000, 8000, 16000, 30000, 30000, …. -/
theorem reconnect_backoff_spec (init maxd : Nat) (h : init ≤ maxd) (n : Nat) :
    backoff init maxd 0 = init ∧
    backoff init maxd n ≤ maxd ∧
    backoff init maxd n ≤ backoff init maxd (n + 1) ∧
    backoff init maxd (n + 1) = min (backoff init maxd n * 2) maxd ∧
    (List.range 7).map (backoff 1000 30000) =
      [1000, 2000, 4000, 8000, 16000, 30000, 30000] := by
  refine ⟨rfl, backoff_le h n, ?_, rfl, by decide⟩
  have hb := backoff_le h n
  simp only [backoff]
  exact le_min (by omega) hb

theorem reconnect_backoff_spec_witness :
    backoff 1000 30000 0 = 1000 ∧
    backoff 1000 30000 4 ≤ 30000 ∧
    backoff 1000 30000 4 ≤ backoff 1000 30000 5 ∧
    backoff 1000 30000 5 = min (backoff 1000 30000 4 * 2) 30000 ∧
    (List.range 7).map (backoff 1000 30000) =
      [1000, 2000, 4000, 8000, 16000, 30000, 30000] :=
  reconnect_backoff_spec 1000 30000 (by decide) 4

/-! ### C3: oversized stream frame -/

/-- C3 counterexample: on a 2 MiB length header the receive loop does set
the state to `Error` without reading the payload, but — contrary to the
claim — it does *not* start the reconnect loop that the other
receive-side connection errors start: it merely breaks out of the loop. -/
theorem oversized_frame_counterexample :
    (receive_iteration (.frame 2097152 true)).stateSet = some .Error ∧
    (receive_iteration (.frame 2097152 true)).payloadReadAttempted = false ∧
    ¬(receive_iteration (.frame 2097152 true)).reconnectStarted = true := by
  decide

/-- C3 amended: a length header exceeding 1 MiB makes the receive loop
set the state to `Error` and exit without attempting to read the payload
and *without* starting the reconnect loop — unlike a hangup or a failed
header read, which set `Error` and do start the reconnect loop. -/
theorem oversized_frame_spec (len : Nat) (payloadOk : Bool)
    (h : 1024 * 1024 < len) :
    receive_iteration (.frame len payloadOk) = ⟨some .Error, false, false, true⟩ ∧
    receive_iteration .hangup = ⟨some .Error, true, false, true⟩ ∧
    receive_iteration .headerFail = ⟨some .Error, true, false, true⟩ := by
  refine ⟨?_, rfl, rfl⟩
  simp [receive_iteration, h]

theorem oversized_frame_spec_witness :
    receive_iteration (.frame 2097152 true) = ⟨some .Error, false, false, true⟩ ∧
    receive_iteration .hangup = ⟨some .Error, true, false, true⟩ ∧
    receive_iteration .headerFail = ⟨some .Error, true, false, true⟩ :=
  oversized_frame_spec 2097152 true (by decide)

/-! ### C10: stop_recording -/

/-- C10: `stop_recording()` sets the session mode to `Playing` (not
`Idle`), with zero notifications when the mode is already `Playing`,
while `stop_playing()` sets the mode to `Idle`. -/
theorem stop_recording_spec (m : SessionStateMachine) :
    (m.stop_recording).1.mode = .Playing ∧
    (m.mode = .Playing → (m.stop_recording).2 = []) ∧
    (m.stop_playing).1.mode = .Idle := by
  refine ⟨?_, ?_, ?_⟩
  · by_cases h : m.mode = SessionMode.Playing <;>
      simp [SessionStateMachine.stop_recording, SessionStateMachine.set_mode, h]
  · intro h
    simp [SessionStateMachine.stop_recording, SessionStateMachine.set_mode, h]
  · by_cases h : m.mode = SessionMode.Idle <;>
      simp [SessionStateMachine.stop_playing, SessionStateMachine.set_mode, h]

theorem stop_recording_spec_witness :
    ((⟨.Connected, .Playing, [7]⟩ : SessionStateMachine).stop_recording).2 = [] :=
  (stop_recording_spec ⟨.Connected, .Playing, [7]⟩).2.1 rfl

/-! ### C5: session state machine setters -/

/-- C5 counterexample: (1) `set_connecting` when already `Connecting` is
*not* a no-op — it re-notifies its observer; (2) `set_disconnected` when
already `Disconnected` is a no-op, so it does *not* force the mode to
`Idle` (the mode can be `Playing` while disconnected via `set_mode`). -/
theorem session_setters_counterexample :
    ¬((⟨.Connecting, .Idle, [0]⟩ : SessionStateMachine).set_connecting).2 = [] ∧
    ¬((⟨.Disconnected, .Playing, [0]⟩ : SessionStateMachine).set_disconnected
        "bye").1.mode = .Idle := by
  decide

/-- C5 amended: `set_connected` and `set_disconnected` are no-ops (no
state change, zero notifications) when already in the target connection
state, and so is `set_mode x` when the mode is already `x`; but
`set_connecting` — like `set_error` — always updates and re-notifies,
even when already in the target state.  Every non-no-op call updates the
state (`set_disconnected` and `set_error` force the mode to `Idle`) and
notifies every registered observer in registration order with the
`{old, new connection; old, new mode; message}` snapshot.  Consequently
`set_disconnected` leaves the mode `Idle` whenever the machine was not
already `Disconnected` (when it was, the call is a no-op and the mode is
left untouched). -/
theorem session_setters_spec (m : SessionStateMachine) (reason err : String)
    (x : SessionMode) :
    (m.connection_state = .Connected → m.set_connected = (m, [])) ∧
    (m.connection_state = .Disconnected → m.set_disconnected reason = (m, [])) ∧
    (m.mode = x → m.set_mode x = (m, [])) ∧
    (m.set_connecting =
      ({ m with connection_state := .Connecting },
        m.observers.map fun o =>
          (o, ⟨m.connection_state, .Connecting, m.mode, m.mode, "Connecting..."⟩))) ∧
    (m.set_error err =
      ({ m with connection_state := .Error, mode := .Idle },
        m.observers.map fun o =>
          (o, ⟨m.connection_state, .Error, m.mode, .Idle, err⟩))) ∧
    (m.connection_state ≠ .Connected →
      m.set_connected =
        ({ m with connection_state := .Connected },
          m.observers.map fun o =>
            (o, ⟨m.connection_state, .Connected, m.mode, m.mode,
                  "Connected to Ableton Live"⟩))) ∧
    (m.connection_state ≠ .Disconnected →
      m.set_disconnected reason =
        ({ m with connection_state := .Disconnected, mode := .Idle },
          m.observers.map fun o =>
            (o, ⟨m.connection_state, .Disconnected, m.mode, .Idle,
                  if reason = "" then "Disconnected" else reason⟩))) ∧
    (m.mode ≠ x →
      m.set_mode x =
        ({ m with mode := x },
          m.observers.map fun o =>
            (o, ⟨m.connection_state, m.connection_state, m.mode, x,
                  "Mode changed to " ++ x.to_string⟩))) ∧
    (m.connection_state ≠ .Disconnected →
      (m.set_disconnected reason).1.mode = .Idle) := by
  refine ⟨fun h => ?_, fun h => ?_, fun h => ?_, ?_, ?_, fun h => ?_,
    fun h => ?_, fun h => ?_, fun h => ?_⟩ <;>
    first
    | simp [SessionStateMachine.set_connected, SessionStateMachine.set_disconnected,
        SessionStateMachine.set_connecting, SessionStateMachine.set_error,
        SessionStateMachine.set_mode, SessionStateMachine.notify_observers, h]
    | simp [SessionStateMachine.set_connected, SessionStateMachine.set_disconnected,
        SessionStateMachine.set_connecting, SessionStateMachine.set_error,
        SessionStateMachine.set_mode, SessionStateMachine.notify_observers]

theorem session_setters_spec_witness :
    ((⟨.Connected, .Playing, [3]⟩ : SessionStateMachine).set_disconnected
      "lost").1.mode = .Idle :=
  (session_setters_spec ⟨.Connected, .Playing, [3]⟩ "lost" "" .Idle).2.2.2.2.2.2.2.2
    (by decide)

/-! ### C8: bridge deserialisation -/

/-- C8: `deserialize_response` yields "no response" on a JSON parse
error, but an uncaught `nlohmann::json::type_error` escapes to the caller
when the reply contains a mixed-type array value — the parse of
`{"success":true,"value":[1,"x"]}` makes `j.get<std::vector<int>>()`
throw, and only `json::parse_error` is caught. -/
theorem deserialize_response_type_error :
    deserialize_response (some (.obj
      [("success", .bool true), ("value", .arr [.intNum 1, .str "x"])]))
      = .error "type_error.302: type must be number" ∧
    deserialize_response none = .ok none := by
  exact ⟨rfl, rfl⟩

/-! ### C9: LomPath round-trip -/

theorem takeWhile_append_of_all {α : Type} (p : α → Bool) {l1 : List α}
    (l2 : List α) (h : ∀ a ∈ l1, p a = true) :
    (l1 ++ l2).takeWhile p = l1 ++ l2.takeWhile p := by
  induction l1 with
  | nil => simp
  | cons a t ih =>
    have ha : p a = true := h a (by simp)
    simp only [List.cons_append, List.takeWhile_cons, ha, if_true]
    rw [ih fun a ha => h a (by simp [ha])]

theorem getlineSplit_joinSegs :
    ∀ segs : List (List Char), (∀ s ∈ segs, s ≠ [] ∧ '/' ∉ s) →
      getlineSplit (joinSegs segs) = segs
  | [], _ => by rw [joinSegs, getlineSplit]; simp
  | [s], h => by
    obtain ⟨hne, hslash⟩ := h s (by simp)
    have hall : ∀ a ∈ s, (decide (a ≠ '/')) = true := by
      intro a ha
      simp only [decide_eq_true_eq]
      exact fun heq => hslash (heq ▸ ha)
    rw [joinSegs, getlineSplit]
    have htw : s.takeWhile (fun a => decide (a ≠ '/')) = s := by
      have := takeWhile_append_of_all (fun a => decide (a ≠ '/')) [] hall
      simpa using this
    simp only [dif_neg hne, htw]
    rw [List.drop_eq_nil_of_le (by omega), getlineSplit]
    simp
  | s :: s2 :: rest, h => by
    obtain ⟨hne, hslash⟩ := h s (by simp)
    have hall : ∀ a ∈ s, (decide (a ≠ '/')) = true := by
      intro a ha
      simp only [decide_eq_true_eq]
      exact fun heq => hslash (heq ▸ ha)
    have hne' : s ++ '/' :: joinSegs (s2 :: rest) ≠ [] := by
      simp [hne]
    rw [joinSegs, getlineSplit]
    rw [dif_neg hne']
    have htw : (s ++ '/' :: joinSegs (s2 :: rest)).takeWhile
        (fun a => decide (a ≠ '/')) = s := by
      rw [takeWhile_append_of_all _ _ hall]
      simp [List.takeWhile_cons]
    simp only [htw]
    have hdrop : (s ++ '/' :: joinSegs (s2 :: rest)).drop (s.length + 1)
        = joinSegs (s2 :: rest) := by
      have : s ++ '/' :: joinSegs (s2 :: rest)
          = (s ++ ['/']) ++ joinSegs (s2 :: rest) := by simp
      rw [this, List.drop_left' (by simp)]
    rw [hdrop, getlineSplit_joinSegs (s2 :: rest) fun t ht => h t (by simp [ht])]

/-- C9: `LomPath::parse` inverts `LomPath::to_string` on every path whose
segments are non-empty and slash-free, and every segment produced by
`parse` is non-empty for arbitrary input. -/
theorem lompath_parse_spec (segs : List (List Char)) (cs : List Char)
    (h : ∀ s ∈ segs, s ≠ [] ∧ '/' ∉ s) :
    LomPath.parse (LomPath.to_string ⟨segs⟩) = ⟨segs⟩ ∧
    ∀ s ∈ (LomPath.parse cs).segments, s ≠ [] := by
  constructor
  · unfold LomPath.parse LomPath.to_string
    rw [getlineSplit_joinSegs segs h]
    simp only [LomPath.mk.injEq]
    rw [List.filter_eq_self]
    intro a ha
    simpa using (h a ha).1
  · intro s hs
    unfold LomPath.parse at hs
    simp only [List.mem_filter, decide_eq_true_eq] at hs
    exact hs.2

theorem lompath_parse_spec_witness :
    LomPath.parse (LomPath.to_string ⟨[['a'], ['b', 'c']]⟩)
      = ⟨[['a'], ['b', 'c']]⟩ :=
  (lompath_parse_spec [['a'], ['b', 'c']] [] (by decide)).1

/-! ### C2: SPSC ring buffer -/

/-- Refinement relation between a ring-buffer state and a plain FIFO
queue. -/
def SpscAbs [Inhabited α] (s : Spsc α cap) (q : List α) : Prop :=
  s.buffer.length = cap ∧ s.read_pos ≤ s.write_pos ∧
  s.write_pos - s.read_pos = q.length ∧ q.length ≤ cap ∧
  ∀ i, i < q.length → s.buffer[(s.read_pos + i) % cap]? = q[i]?

theorem mod_ne_of_lt_of_sub_lt {a b n : Nat} (h1 : a < b) (h2 : b - a < n) :
    a % n ≠ b % n := by
  intro he
  have hd : n ∣ b - a := (Nat.modEq_iff_dvd' (le_of_lt h1)).1 he
  have := Nat.le_of_dvd (by omega) hd
  omega

theorem spsc_step_sim [Inhabited α] (hcap : 0 < cap) (s : Spsc α cap)
    (q : List α) (hR : SpscAbs s q) (op : SpscOp α) :
    SpscAbs (s.step op) (queueStep cap q op) := by
  obtain ⟨hlen, hrw, hsz, hqc, helem⟩ := hR
  cases op with
  | push x =>
    simp only [Spsc.step, Spsc.try_push, queueStep]
    by_cases hfull : cap ≤ s.write_pos - s.read_pos
    · have hq : q.length = cap := by omega
      simp only [hfull, if_pos, if_true, hq]
      exact ⟨hlen, hrw, by omega, hqc, helem⟩
    · have hq : ¬q.length = cap := by omega
      simp only [hfull, if_neg, if_false, hq]
      unfold SpscAbs
      dsimp only
      refine ⟨by simp [hlen], by omega,
        by simp only [List.length_append, List.length_singleton]; omega,
        by simp only [List.length_append, List.length_singleton]; omega, ?_⟩
      intro i hi
      simp only [List.length_append, List.length_singleton] at hi
      rcases Nat.lt_or_ge i q.length with hlt | hge
      · have hne : s.write_pos % cap ≠ (s.read_pos + i) % cap := by
          refine (mod_ne_of_lt_of_sub_lt (a := s.read_pos + i)
            (b := s.write_pos) (by omega) (by omega)).symm
        rw [List.getElem?_set_ne hne, List.getElem?_append_left hlt]
        exact helem i hlt
      · have hieq : i = q.length := by omega
        have hidx : s.read_pos + i = s.write_pos := by omega
        rw [hieq] at hidx ⊢
        rw [hidx]
        rw [List.getElem?_set_eq_of_lt x (by rw [hlen]; exact Nat.mod_lt _ hcap)]
        rw [List.getElem?_append_right (by omega)]
        simp
  | pop =>
    simp only [Spsc.step, Spsc.try_pop, queueStep]
    by_cases hempty : s.read_pos = s.write_pos
    · have hq : q = [] := by
        have : q.length = 0 := by omega
        exact List.length_eq_zero.mp this
      simp only [hempty, if_pos, if_true, hq, List.drop_nil]
      exact hq ▸ ⟨hlen, hrw, hsz, hqc, helem⟩
    · simp only [hempty, if_neg, if_false]
      unfold SpscAbs
      dsimp only
      refine ⟨hlen, by omega, by simp only [List.length_drop]; omega,
        by simp only [List.length_drop]; omega, ?_⟩
      intro i hi
      simp only [List.length_drop] at hi
      have h1 := helem (i + 1) (by omega)
      have hidx : s.read_pos + (i + 1) = s.read_pos + 1 + i := by omega
      rw [hidx] at h1
      rw [h1, List.getElem?_drop]
      congr 1
      omega

theorem spsc_run_sim [Inhabited α] (hcap : 0 < cap) :
    ∀ (ops : List (SpscOp α)) (s : Spsc α cap) (q : List α),
      SpscAbs s q → SpscAbs (s.run ops) (queueRun cap q ops)
  | [], _, _, h => h
  | op :: ops, s, q, h =>
    spsc_run_sim hcap ops (s.step op) (queueStep cap q op)
      (spsc_step_sim hcap s q h op)

theorem spsc_init_abs (α : Type) [Inhabited α] (cap : Nat) :
    SpscAbs (Spsc.init α cap) ([] : List α) :=
  ⟨List.length_replicate _ _, Nat.le_refl _, rfl, Nat.zero_le _,
    fun i hi => absurd hi (by simp)⟩

theorem spsc_toList_eq [Inhabited α] {s : Spsc α cap} {q : List α}
    (hR : SpscAbs s q) : s.toList = q := by
  obtain ⟨hlen, hrw, hsz, hqc, helem⟩ := hR
  unfold Spsc.toList Spsc.size
  apply List.ext_getElem (by simp [hsz])
  intro n h1 h2
  simp only [List.getElem_map, List.getElem_range]
  rw [List.getD_eq_getElem?_getD, helem n (by simpa using h2),
    List.getElem?_eq_getElem h2]
  rfl

/-- C2: under sequential use the ring buffer refines a FIFO queue after
any operation sequence (including cursor wrap-around): `try_push` fails
with no mutation exactly when `write_pos - read_pos = Capacity`, a
successful push appends, `try_pop` returns the oldest element and drops
it, and the concrete capacity-4 scenario behaves as specified. -/
theorem spsc_fifo_spec (α : Type) [Inhabited α] (cap : Nat) (hcap : 0 < cap)
    (ops : List (SpscOp α)) (x : α) :
    ((Spsc.init α cap).run ops).toList = queueRun cap [] ops ∧
    ((((Spsc.init α cap).run ops).try_push x).1 = false ↔
      ((Spsc.init α cap).run ops).write_pos -
        ((Spsc.init α cap).run ops).read_pos = cap) ∧
    ((((Spsc.init α cap).run ops).try_push x).1 = false →
      (((Spsc.init α cap).run ops).try_push x).2 = (Spsc.init α cap).run ops) ∧
    ((((Spsc.init α cap).run ops).try_push x).1 = true →
      (((Spsc.init α cap).run ops).try_push x).2.toList =
        queueRun cap [] ops ++ [x]) ∧
    (((Spsc.init α cap).run ops).try_pop).1 = (queueRun cap [] ops).head? ∧
    (((Spsc.init α cap).run ops).try_pop).2.toList =
      (queueRun cap [] ops).drop 1 ∧
    ((((Spsc.init Nat 4).run [.push 0, .push 1, .push 2, .push 3]).try_push 4).1
        = false ∧
      ((Spsc.init Nat 4).run [.push 0, .push 1, .push 2, .push 3]).toList
        = [0, 1, 2, 3] ∧
      (((Spsc.init Nat 4).run [.push 0, .push 1, .push 2, .push 3]).try_pop).1
        = some 0 ∧
      ((((Spsc.init Nat 4).run
          [.push 0, .push 1, .push 2, .push 3]).try_pop).2.try_push 4).1
        = true) := by
  have hR := spsc_run_sim hcap ops (Spsc.init α cap) [] (spsc_init_abs α cap)
  set s := (Spsc.init α cap).run ops with hs
  set q := queueRun cap ([] : List α) ops with hq
  obtain ⟨hlen, hrw, hsz, hqc, helem⟩ := hR
  have hRfull : SpscAbs s q := ⟨hlen, hrw, hsz, hqc, helem⟩
  refine ⟨spsc_toList_eq hRfull, ?_, ?_, ?_, ?_, ?_, by decide⟩
  · unfold Spsc.try_push
    by_cases hfull : cap ≤ s.write_pos - s.read_pos
    · rw [if_pos hfull]
      dsimp only
      exact ⟨fun _ => by omega, fun _ => rfl⟩
    · rw [if_neg hfull]
      dsimp only
      exact ⟨fun h => by simp at h, fun h => (hfull (by omega)).elim⟩
  · unfold Spsc.try_push
    by_cases hfull : cap ≤ s.write_pos - s.read_pos
    · rw [if_pos hfull]
      intro _
      rfl
    · rw [if_neg hfull]
      dsimp only
      intro h
      exact absurd h (by simp)
  · intro hsucc
    have hstep := spsc_step_sim hcap s q hRfull (.push x)
    have hfull : ¬cap ≤ s.write_pos - s.read_pos := by
      intro hc
      unfold Spsc.try_push at hsucc
      simp [hc] at hsucc
    have hqne : ¬q.length = cap := by omega
    simp only [Spsc.step, queueStep, hqne, if_neg, if_false] at hstep
    exact spsc_toList_eq hstep
  · unfold Spsc.try_pop
    by_cases hempty : s.read_pos = s.write_pos
    · have hq0 : q = [] := List.length_eq_zero.mp (by omega)
      simp [hempty, hq0]
    · simp only [hempty, if_neg, if_false]
      have hqpos : 0 < q.length := by omega
      obtain ⟨h, t, hht⟩ : ∃ h t, q = h :: t :=
        match q, hqpos with | a :: t, _ => ⟨a, t, rfl⟩
      have h0 := helem 0 hqpos
      rw [List.getD_eq_getElem?_getD]
      simp only [Nat.add_zero] at h0
      rw [h0, hht]
      simp
  · have hstep := spsc_step_sim hcap s q hRfull .pop
    simp only [Spsc.step, queueStep] at hstep
    exact spsc_toList_eq hstep

theorem spsc_fifo_spec_witness :
    ((Spsc.init Nat 4).run [.push 0, .push 1, .push 2]).toList
      = queueRun 4 [] [SpscOp.push 0, .push 1, .push 2] :=
  (spsc_fifo_spec Nat 4 (by decide) [.push 0, .push 1, .push 2] 9).1

/-! ### OSC codec: length and alignment lemmas -/

theorem align4_mod (n : Nat) : align4 n % 4 = 0 := by
  unfold align4; omega

theorem align4_ge (n : Nat) : n ≤ align4 n := by
  unfold align4; omega

theorem padString_length (s : List Nat) :
    (padString s).length = align4 (s.length + 1) := by
  have h := align4_ge (s.length + 1)
  simp only [padString, List.length_append, List.length_replicate]
  omega

theorem padBlob_length (b : List Nat) :
    (padBlob b).length = align4 b.length := by
  have h := align4_ge b.length
  simp only [padBlob, List.length_append, List.length_replicate]
  omega

theorem word32Bytes_length (bits : Nat) : (word32Bytes bits).length = 4 := rfl

theorem int32Bytes_length (v : Int) : (int32Bytes v).length = 4 := rfl

theorem typeTagString_length (args : List OscArg) :
    (typeTagString args).length = args.length + 1 := by
  simp [typeTagString]

theorem OscArg.bytes_length (a : OscArg) : a.bytes.length = a.size := by
  cases a with
  | i v => rfl
  | f bits => rfl
  | s str => simpa [OscArg.bytes, OscArg.size] using padString_length str
  | b blob =>
    simp [OscArg.bytes, OscArg.size, int32Bytes_length, padBlob_length]

/-! ### C7: packet length is a multiple of 4 -/

theorem write_padded_string_data_mod {w : OscWriter} (s : List Nat)
    (h : w.data.length % 4 = 0) :
    (w.write_padded_string s).data.length % 4 = 0 := by
  unfold OscWriter.write_padded_string
  split
  · have h1 := align4_mod (s.length + 1)
    simp only [List.length_append, padString_length]
    omega
  · exact h

theorem write_int32_be_data_mod {w : OscWriter} (v : Int)
    (h : w.data.length % 4 = 0) :
    (w.write_int32_be v).data.length % 4 = 0 := by
  unfold OscWriter.write_int32_be
  split
  · simp only [List.length_append, int32Bytes_length]
    omega
  · exact h

theorem write_float32_be_data_mod {w : OscWriter} (bits : Nat)
    (h : w.data.length % 4 = 0) :
    (w.write_float32_be bits).data.length % 4 = 0 := by
  unfold OscWriter.write_float32_be
  split
  · simp only [List.length_append, word32Bytes_length]
    omega
  · exact h

theorem writeArg_data_mod {w : OscWriter} (a : OscArg)
    (h : w.data.length % 4 = 0) :
    (w.writeArg a).data.length % 4 = 0 := by
  cases a with
  | i v => exact write_int32_be_data_mod v h
  | f bits => exact write_float32_be_data_mod bits h
  | s str => exact write_padded_string_data_mod str h
  | b blob =>
    simp only [OscWriter.writeArg]
    have h2 := write_int32_be_data_mod (w := w) (Int.ofNat blob.length) h
    split
    · exact h2
    · split
      · have h3 := align4_mod blob.length
        simp only [List.length_append, padBlob_length]
        omega
      · exact h2

theorem writeArgs_data_mod {w : OscWriter} (args : List OscArg)
    (h : w.data.length % 4 = 0) :
    (w.writeArgs args).data.length % 4 = 0 := by
  induction args generalizing w with
  | nil => exact h
  | cons a rest ih =>
    show (if (w.writeArg a).error then w.writeArg a
          else (w.writeArg a).writeArgs rest).data.length % 4 = 0
    have h2 := writeArg_data_mod a h
    split
    · exact h2
    · exact ih h2

theorem end_message_data_mod {w : OscWriter}
    (h : w.data.length % 4 = 0) :
    (w.end_message).data.length % 4 = 0 := by
  unfold OscWriter.end_message
  split
  · exact h
  · dsimp only
    have h1 := write_padded_string_data_mod (w := w) w.address h
    split
    · exact h1
    · have h2 := write_padded_string_data_mod (typeTagString w.args) h1
      split
      · exact h2
      · have h3 := writeArgs_data_mod w.args h2
        split
        · exact h3
        · exact h3

theorem add_arg_data_mod {w : OscWriter} (a : OscArg)
    (h : w.data.length % 4 = 0) :
    (w.add_arg a).data.length % 4 = 0 := by
  unfold OscWriter.add_arg
  split
  · exact h
  · split <;> exact h

theorem step_data_mod {w : OscWriter} (op : OscOp)
    (h : w.data.length % 4 = 0) :
    (w.step op).data.length % 4 = 0 := by
  cases op with
  | begin address =>
    show (w.begin_message address).data.length % 4 = 0
    unfold OscWriter.begin_message
    split
    · exact h
    · split
      · exact h
      · simp
  | addI v => exact add_arg_data_mod (.i v) h
  | addF bits => exact add_arg_data_mod (.f bits) h
  | addS s => exact add_arg_data_mod (.s s) h
  | addB b => exact add_arg_data_mod (.b b) h
  | endMsg => exact end_message_data_mod h

theorem run_data_mod {w : OscWriter} (ops : List OscOp)
    (h : w.data.length % 4 = 0) :
    (w.run ops).data.length % 4 = 0 := by
  induction ops generalizing w with
  | nil => exact h
  | cons op ops ih => exact ih (step_data_mod op h)

/-- C7: whatever call sequence the client makes, the byte range returned
by `packet()` has length divisible by 4 — every serialized piece (padded
address, padded type-tag string, 4-byte numerics, padded strings,
length-prefixed padded blobs) occupies a multiple of 4 bytes. -/
theorem osc_packet_aligned (cap : Nat) (ops : List OscOp) :
    ((OscWriter.init cap).run ops).packet.length % 4 = 0 := by
  unfold OscWriter.packet
  split
  · rfl
  · exact run_data_mod ops rfl

/-! ### C4: sticky error flag -/

/-- States reachable from a fresh writer satisfy: before `begin_message`
succeeds nothing has been written. -/
def OscWriterWF (w : OscWriter) : Prop :=
  w.message_started = false → w.data = []

theorem write_padded_string_started (w : OscWriter) (s : List Nat) :
    (w.write_padded_string s).message_started = w.message_started := by
  unfold OscWriter.write_padded_string
  split <;> rfl

theorem write_int32_be_started (w : OscWriter) (v : Int) :
    (w.write_int32_be v).message_started = w.message_started := by
  unfold OscWriter.write_int32_be
  split <;> rfl

theorem write_float32_be_started (w : OscWriter) (bits : Nat) :
    (w.write_float32_be bits).message_started = w.message_started := by
  unfold OscWriter.write_float32_be
  split <;> rfl

theorem writeArg_started (w : OscWriter) (a : OscArg) :
    (w.writeArg a).message_started = w.message_started := by
  cases a with
  | i v => exact write_int32_be_started w v
  | f bits => exact write_float32_be_started w bits
  | s str => exact write_padded_string_started w str
  | b blob =>
    simp only [OscWriter.writeArg]
    split
    · exact write_int32_be_started w _
    · split <;> simpa using write_int32_be_started w (Int.ofNat blob.length)

theorem writeArgs_started (w : OscWriter) (args : List OscArg) :
    (w.writeArgs args).message_started = w.message_started := by
  induction args generalizing w with
  | nil => rfl
  | cons a rest ih =>
    show (if (w.writeArg a).error then w.writeArg a
          else (w.writeArg a).writeArgs rest).message_started
      = w.message_started
    split
    · exact writeArg_started w a
    · exact (ih _).trans (writeArg_started w a)

theorem end_message_started (w : OscWriter) :
    (w.end_message).message_started = w.message_started := by
  unfold OscWriter.end_message
  split
  · rfl
  · dsimp only
    split
    · exact write_padded_string_started w _
    · split
      · exact (write_padded_string_started _ _).trans
          (write_padded_string_started w _)
      · have h12 : ((w.write_padded_string w.address).write_padded_string
            (typeTagString w.args)).message_started = w.message_started :=
          (write_padded_string_started _ _).trans
            (write_padded_string_started w _)
        split
        · exact (writeArgs_started _ _).trans h12
        · simpa using (writeArgs_started _ _).trans h12

theorem begin_message_wf {w : OscWriter} (address : List Nat)
    (h : OscWriterWF w) : OscWriterWF (w.begin_message address) := by
  unfold OscWriterWF OscWriter.begin_message at *
  split
  · exact h
  · split
    · exact h
    · intro hns
      simp at hns

theorem add_arg_wf {w : OscWriter} (a : OscArg)
    (h : OscWriterWF w) : OscWriterWF (w.add_arg a) := by
  unfold OscWriterWF OscWriter.add_arg at *
  split
  · exact h
  · split <;> exact h

theorem step_wf {w : OscWriter} (op : OscOp)
    (h : OscWriterWF w) : OscWriterWF (w.step op) := by
  cases op with
  | begin address => exact begin_message_wf address h
  | addI v => exact add_arg_wf (.i v) h
  | addF bits => exact add_arg_wf (.f bits) h
  | addS s => exact add_arg_wf (.s s) h
  | addB b => exact add_arg_wf (.b b) h
  | endMsg =>
    show OscWriterWF w.end_message
    intro hns
    rw [end_message_started] at hns
    simp [OscWriter.end_message, hns, h hns]

theorem run_wf {w : OscWriter} (ops : List OscOp)
    (h : OscWriterWF w) : OscWriterWF (w.run ops) := by
  induction ops generalizing w with
  | nil => exact h
  | cons op ops ih => exact ih (step_wf op h)

theorem init_wf (cap : Nat) : OscWriterWF (OscWriter.init cap) :=
  fun _ => rfl

/-- Once the error flag is set, one more call neither clears it nor
changes the written bytes. -/
theorem step_sticky {w : OscWriter} (op : OscOp) (hwf : OscWriterWF w)
    (herr : w.error = true) :
    (w.step op).error = true ∧ (w.step op).data = w.data := by
  cases op with
  | begin address =>
    show (w.begin_message address).error = true ∧
      (w.begin_message address).data = w.data
    unfold OscWriter.begin_message
    split
    · exact ⟨rfl, rfl⟩
    · split
      · exact ⟨rfl, rfl⟩
      · rename_i hns _
        exact ⟨herr, (hwf (by simpa using hns)).symm⟩
  | addI v =>
    refine ⟨?_, ?_⟩ <;> simp [OscWriter.step, OscWriter.add_int32,
      OscWriter.add_arg, herr]
  | addF bits =>
    refine ⟨?_, ?_⟩ <;> simp [OscWriter.step, OscWriter.add_float32,
      OscWriter.add_arg, herr]
  | addS s =>
    refine ⟨?_, ?_⟩ <;> simp [OscWriter.step, OscWriter.add_string,
      OscWriter.add_arg, herr]
  | addB b =>
    refine ⟨?_, ?_⟩ <;> simp [OscWriter.step, OscWriter.add_blob,
      OscWriter.add_arg, herr]
  | endMsg =>
    refine ⟨?_, ?_⟩ <;> simp [OscWriter.step, OscWriter.end_message, herr]

theorem run_sticky {w : OscWriter} (ops : List OscOp) (hwf : OscWriterWF w)
    (herr : w.error = true) :
    (w.run ops).error = true ∧ (w.run ops).data = w.data := by
  induction ops generalizing w with
  | nil => exact ⟨herr, rfl⟩
  | cons op ops ih =>
    have hs := step_sticky op hwf herr
    have h2 := ih (step_wf op hwf) hs.1
    exact ⟨h2.1, h2.2.trans hs.2⟩

theorem packet_of_error {w : OscWriter} (herr : w.error = true) :
    w.packet = [] := by
  simp [OscWriter.packet, herr]

/-- C4: after any call sequence that set the sticky error flag, every
further call leaves the flag set and the written bytes untouched, and
`packet()` stays empty; `packet()` is non-empty only if no error occurred
and `end_message` was called; and each listed violation — `begin_message`
while a message is in progress, `add_*` or `end_message` before
`begin_message`, a 65th argument, `end_message` twice, or a write that
does not fit the buffer — sets the flag. -/
theorem osc_writer_error_spec (cap : Nat) (ops ops2 : List OscOp)
    (w0 : OscWriter) (a : OscArg) (addr s : List Nat) (v : Int) :
    (((OscWriter.init cap).run ops).error = true →
      (((OscWriter.init cap).run ops).run ops2).error = true ∧
      (((OscWriter.init cap).run ops).run ops2).data
        = ((OscWriter.init cap).run ops).data ∧
      (((OscWriter.init cap).run ops).run ops2).packet = []) ∧
    (((OscWriter.init cap).run ops).packet ≠ [] →
      ((OscWriter.init cap).run ops).error = false ∧
      ((OscWriter.init cap).run ops).message_ended = true) ∧
    (w0.message_started = true → (w0.begin_message addr).error = true) ∧
    (w0.message_started = false → (w0.add_arg a).error = true) ∧
    (w0.message_started = false → w0.end_message.error = true) ∧
    (OSC_MAX_ARGS ≤ w0.args.length → (w0.add_arg a).error = true) ∧
    (w0.message_ended = true → w0.end_message.error = true) ∧
    (w0.has_space (align4 (s.length + 1)) = false →
      (w0.write_padded_string s).error = true) ∧
    (w0.has_space 4 = false → (w0.write_int32_be v).error = true) := by
  refine ⟨?_, ?_, ?_, ?_, ?_, ?_, ?_, ?_, ?_⟩
  · intro herr
    have hwf := run_wf (w := OscWriter.init cap) ops (init_wf cap)
    have h := run_sticky ops2 hwf herr
    exact ⟨h.1, h.2, packet_of_error h.1⟩
  · intro hne
    unfold OscWriter.packet at hne
    by_cases hc : ((OscWriter.init cap).run ops).error = true ∨
        ¬((OscWriter.init cap).run ops).message_ended = true
    · rw [if_pos hc] at hne
      exact absurd rfl hne
    · push_neg at hc
      exact ⟨by simpa using hc.1, hc.2⟩
  · intro h
    simp [OscWriter.begin_message, h]
  · intro h
    simp [OscWriter.add_arg, h]
  · intro h
    simp [OscWriter.end_message, h]
  · intro h
    simp only [OscWriter.add_arg, if_pos h]
    split <;> rfl
  · intro h
    simp [OscWriter.end_message, h]
  · intro h
    simp [OscWriter.write_padded_string, h]
  · intro h
    simp [OscWriter.write_int32_be, h]

theorem osc_writer_error_spec_witness :
    (((OscWriter.init 8).run [.addI 0]).run
      [.begin [47], .addI 1, .endMsg]).packet = [] :=
  ((osc_writer_error_spec 8 [.addI 0] [.begin [47], .addI 1, .endMsg]
    (OscWriter.init 8) (.i 0) [47] [] 0).1 (by decide)).2.2

/-! ### C1: encode/decode round-trip — numeric lemmas -/

theorem word32_recompose {p : Nat} (h : p < 4294967296) :
    p / 16777216 % 256 * 16777216 + p / 65536 % 256 * 65536 +
      p / 256 % 256 * 256 + p % 256 = p := by
  omega

theorem toInt32_pattern {v : Int} (h1 : -2147483648 ≤ v)
    (h2 : v < 2147483648) : toInt32 ((v % 4294967296).toNat) = v := by
  unfold toInt32
  split <;> omega

theorem readInt32_int32Bytes {v : Int} (h1 : -2147483648 ≤ v)
    (h2 : v < 2147483648) (rest : List Nat) :
    readInt32 (int32Bytes v ++ rest) = some (v, rest) := by
  have hp : (v % 4294967296).toNat < 4294967296 := by omega
  simp only [int32Bytes, word32Bytes, List.cons_append, List.nil_append,
    readInt32]
  rw [word32_recompose hp, toInt32_pattern h1 h2]

theorem readFloat32_word32Bytes {bits : Nat} (h : bits < 4294967296)
    (rest : List Nat) :
    readFloat32 (word32Bytes bits ++ rest) = some (bits, rest) := by
  simp only [word32Bytes, List.cons_append, List.nil_append, readFloat32]
  rw [word32_recompose h]

/-! ### C1: string lemmas -/

theorem readOscString_padString {s : List Nat} (h : ∀ b ∈ s, b ≠ 0)
    (rest : List Nat) :
    readOscString (padString s ++ rest) = some (s, rest) := by
  have hge := align4_ge (s.length + 1)
  have hall : ∀ b ∈ s, (decide (b ≠ 0)) = true :=
    fun b hb => decide_eq_true (h b hb)
  have hrep : List.replicate (align4 (s.length + 1) - s.length) 0
      = 0 :: List.replicate (align4 (s.length + 1) - s.length - 1) 0 := by
    have hk : align4 (s.length + 1) - s.length
        = (align4 (s.length + 1) - s.length - 1) + 1 := by omega
    conv_lhs => rw [hk]
    rw [List.replicate_succ]
  have hsplit : padString s ++ rest = s ++
      (0 :: (List.replicate (align4 (s.length + 1) - s.length - 1) 0 ++ rest)) := by
    simp [padString, hrep]
  have h1 : padString s ++ rest ≠ [] := by
    intro hc
    have := congrArg List.length hc
    simp [padString_length] at this
    omega
  have h2 : (padString s ++ rest).takeWhile (fun b => decide (b ≠ 0)) = s := by
    rw [hsplit, takeWhile_append_of_all _ _ hall]
    simp [List.takeWhile_cons]
  have h3 : ¬s.length = (padString s ++ rest).length := by
    simp only [List.length_append, padString_length]
    omega
  have h4 : (padString s ++ rest).drop (align4 (s.length + 1)) = rest := by
    rw [← padString_length s]
    exact List.drop_left _ _
  unfold readOscString
  rw [if_neg h1]
  dsimp only
  rw [h2, if_neg h3, h4]

theorem OscArg.tagChar_ne_zero (a : OscArg) : a.tagChar ≠ 0 := by
  cases a <;> simp [OscArg.tagChar]

theorem typeTagString_ne_zero (args : List OscArg) :
    ∀ b ∈ typeTagString args, b ≠ 0 := by
  intro b hb
  simp only [typeTagString, List.mem_cons, List.mem_map] at hb
  rcases hb with h | ⟨a, _, ha⟩
  · omega
  · exact ha ▸ a.tagChar_ne_zero

/-! ### C1: argument-loop decode lemma -/

theorem parseOscArgs_encoded (args : List OscArg)
    (h : ∀ a ∈ args, a.ok = true) (acc : List OscArg) :
    parseOscArgs (args.map OscArg.tagChar) ((args.map OscArg.bytes).flatten) acc
      = some (acc ++ args) := by
  induction args generalizing acc with
  | nil => simp [parseOscArgs]
  | cons a rest ih =>
    have ha := h a (by simp)
    have hrest : ∀ x ∈ rest, x.ok = true := fun x hx => h x (by simp [hx])
    cases a with
    | i v =>
      have hok : -2147483648 ≤ v ∧ v < 2147483648 := by
        simpa [OscArg.ok] using ha
      simp only [List.map_cons, List.flatten_cons, OscArg.tagChar,
        OscArg.bytes, parseOscArgs, if_true]
      rw [readInt32_int32Bytes hok.1 hok.2]
      have hih := ih hrest (acc ++ [.i v])
      rw [List.append_assoc, List.singleton_append] at hih
      exact hih
    | f bits =>
      have hok : bits < 4294967296 := by simpa [OscArg.ok] using ha
      simp only [List.map_cons, List.flatten_cons, OscArg.tagChar,
        OscArg.bytes, parseOscArgs, if_true]
      rw [readFloat32_word32Bytes hok]
      have hih := ih hrest (acc ++ [.f bits])
      rw [List.append_assoc, List.singleton_append] at hih
      exact hih
    | s str =>
      have hok : ∀ b ∈ str, b ≠ 0 := by
        have h2 : ∀ x ∈ str, ¬x = 0 ∧ x < 256 := by
          simpa [OscArg.ok] using ha
        exact fun b hb => (h2 b hb).1
      simp only [List.map_cons, List.flatten_cons, OscArg.tagChar,
        OscArg.bytes, parseOscArgs, if_true]
      rw [readOscString_padString hok]
      have hih := ih hrest (acc ++ [.s str])
      rw [List.append_assoc, List.singleton_append] at hih
      exact hih
    | b blob =>
      have hok : blob.length < 2147483648 := by
        have h2 := ha
        simp [OscArg.ok] at h2
        exact h2.2
      have hcast : Int.ofNat blob.length = (blob.length : Int) := rfl
      have htn : (Int.ofNat blob.length).toNat = blob.length := rfl
      simp only [List.map_cons, List.flatten_cons, OscArg.tagChar,
        OscArg.bytes, parseOscArgs, if_true, if_false, List.append_assoc]
      have hlen : ¬(int32Bytes (Int.ofNat blob.length) ++
          (padBlob blob ++ (rest.map OscArg.bytes).flatten)).length < 4 := by
        simp [int32Bytes_length]
      rw [if_neg hlen]
      rw [readInt32_int32Bytes (v := Int.ofNat blob.length)
        (by omega) (by omega)]
      rw [if_neg (by decide : ¬(98 = 105)), if_neg (by decide : ¬(98 = 102)),
        if_neg (by decide : ¬(98 = 115))]
      dsimp only
      have hsz : ¬((Int.ofNat blob.length) < 0 ∨
          (padBlob blob ++ (rest.map OscArg.bytes).flatten).length
            < (Int.ofNat blob.length).toNat) := by
        push_neg
        refine ⟨by omega, ?_⟩
        simp only [List.length_append, padBlob_length, htn]
        have := align4_ge blob.length
        omega
      rw [if_neg hsz]
      have htake : (padBlob blob ++ (rest.map OscArg.bytes).flatten).take
          (Int.ofNat blob.length).toNat = blob := by
        rw [htn]
        unfold padBlob
        rw [List.append_assoc]
        exact List.take_left _ _
      have hdrop : (padBlob blob ++ (rest.map OscArg.bytes).flatten).drop
          (align4 (Int.ofNat blob.length).toNat)
            = (rest.map OscArg.bytes).flatten := by
        rw [htn, ← padBlob_length]
        exact List.drop_left _ _
      rw [htake, hdrop]
      have hih := ih hrest (acc ++ [.b blob])
      rw [List.append_assoc, List.singleton_append] at hih
      exact hih

/-! ### C1: encoder closed form -/

theorem OscWriter.run_append (w : OscWriter) (l1 l2 : List OscOp) :
    w.run (l1 ++ l2) = (w.run l1).run l2 := by
  simp [OscWriter.run, List.foldl_append]

theorem write_padded_string_fits {w : OscWriter} {s : List Nat}
    (h : w.data.length + align4 (s.length + 1) ≤ w.capacity) :
    w.write_padded_string s = { w with data := w.data ++ padString s } := by
  have hs : w.has_space (align4 (s.length + 1)) = true := by
    simp only [OscWriter.has_space, decide_eq_true_eq]
    exact h
  unfold OscWriter.write_padded_string
  rw [if_pos hs]

theorem write_int32_be_fits {w : OscWriter} {v : Int}
    (h : w.data.length + 4 ≤ w.capacity) :
    w.write_int32_be v = { w with data := w.data ++ int32Bytes v } := by
  have hs : w.has_space 4 = true := by
    simp only [OscWriter.has_space, decide_eq_true_eq]
    exact h
  unfold OscWriter.write_int32_be
  rw [if_pos hs]

theorem write_float32_be_fits {w : OscWriter} {bits : Nat}
    (h : w.data.length + 4 ≤ w.capacity) :
    w.write_float32_be bits = { w with data := w.data ++ word32Bytes bits } := by
  have hs : w.has_space 4 = true := by
    simp only [OscWriter.has_space, decide_eq_true_eq]
    exact h
  unfold OscWriter.write_float32_be
  rw [if_pos hs]

theorem writeArg_fits {w : OscWriter} {a : OscArg} (herr : w.error = false)
    (h : w.data.length + a.size ≤ w.capacity) :
    w.writeArg a = { w with data := w.data ++ a.bytes } := by
  cases a with
  | i v => exact write_int32_be_fits h
  | f bits => exact write_float32_be_fits h
  | s str => exact write_padded_string_fits h
  | b blob =>
    have h' : w.data.length + (4 + align4 blob.length) ≤ w.capacity := h
    simp only [OscWriter.writeArg]
    rw [write_int32_be_fits (by omega)]
    dsimp only
    rw [if_neg (by simp [herr])]
    have hs2 : ({ w with data := w.data ++ int32Bytes (Int.ofNat blob.length) }
        : OscWriter).has_space (align4 blob.length) = true := by
      simp only [OscWriter.has_space, decide_eq_true_eq, List.length_append,
        int32Bytes_length]
      omega
    rw [if_pos hs2]
    simp [OscArg.bytes, List.append_assoc]

theorem writeArgs_fits {w : OscWriter} (args : List OscArg)
    (herr : w.error = false)
    (hsp : w.data.length + ((args.map OscArg.size).sum) ≤ w.capacity) :
    w.writeArgs args
      = { w with data := w.data ++ (args.map OscArg.bytes).flatten } := by
  induction args generalizing w with
  | nil => simp [OscWriter.writeArgs]
  | cons a rest ih =>
    have hsp' : w.data.length + (a.size + ((rest.map OscArg.size).sum))
        ≤ w.capacity := by simpa using hsp
    show (if (w.writeArg a).error then w.writeArg a
          else (w.writeArg a).writeArgs rest)
        = { w with data := w.data ++ ((a :: rest).map OscArg.bytes).flatten }
    rw [writeArg_fits herr (by omega)]
    dsimp only
    rw [if_neg (by simp [herr])]
    rw [ih (w := { w with data := w.data ++ a.bytes }) herr (by
      simp only [List.length_append, OscArg.bytes_length]
      omega)]
    simp [List.append_assoc]

theorem end_message_fits {w : OscWriter} (herr : w.error = false)
    (hs : w.message_started = true) (hne : w.message_ended = false)
    (hsp : w.data.length + align4 (w.address.length + 1) +
      align4 (w.args.length + 2) + ((w.args.map OscArg.size).sum)
        ≤ w.capacity) :
    w.end_message = { w with
      data := w.data ++ padString w.address ++ padString (typeTagString w.args)
        ++ (w.args.map OscArg.bytes).flatten,
      message_ended := true } := by
  unfold OscWriter.end_message
  rw [if_neg (by simp [herr, hs, hne])]
  dsimp only
  rw [write_padded_string_fits (by omega)]
  dsimp only
  rw [if_neg (by simp [herr])]
  rw [write_padded_string_fits (by
    simp only [List.length_append, padString_length, typeTagString_length]
    have h22 := congrArg align4
      (show w.args.length + 1 + 1 = w.args.length + 2 by omega)
    omega)]
  dsimp only
  rw [if_neg (by simp [herr])]
  rw [writeArgs_fits
    (w := { w with
      data := w.data ++ padString w.address ++ padString (typeTagString w.args) })
    w.args herr (by
    simp only [List.length_append, padString_length, typeTagString_length]
    have h22 := congrArg align4
      (show w.args.length + 1 + 1 = w.args.length + 2 by omega)
    omega)]
  dsimp only
  rw [if_neg (by simp [herr])]

theorem run_add_ops (pending : List OscArg) : ∀ (w : OscWriter),
    w.error = false → w.message_started = true → w.message_ended = false →
    w.args.length + pending.length ≤ OSC_MAX_ARGS →
    w.run (pending.map OscArg.op) = { w with args := w.args ++ pending } := by
  induction pending with
  | nil =>
    intro w _ _ _ _
    simp [OscWriter.run]
  | cons a rest ih =>
    intro w herr hs hne hlen
    simp only [List.length_cons] at hlen
    have hstep : w.step a.op = w.add_arg a := by cases a <;> rfl
    show ((w.step a.op).run (rest.map OscArg.op))
        = { w with args := w.args ++ a :: rest }
    rw [hstep]
    have hadd : w.add_arg a = { w with args := w.args ++ [a] } := by
      unfold OscWriter.add_arg
      rw [if_neg (by simp [herr, hs, hne]), if_neg (by
        simp only [OSC_MAX_ARGS] at hlen ⊢
        omega)]
    rw [hadd]
    rw [ih { w with args := w.args ++ [a] } herr hs hne (by
      simp only [List.length_append, List.length_singleton]
      omega)]
    simp [List.append_assoc]

theorem osc_encode (cap : Nat) (addr : List Nat) (args : List OscArg)
    (h1 : addr ≠ []) (h2 : addr.head? = some 47)
    (h4 : args.length ≤ OSC_MAX_ARGS)
    (h6 : oscEncodedSize addr args ≤ cap) :
    (OscWriter.init cap).run (oscOps addr args)
      = ⟨cap, oscEncodedBytes addr args, args, addr, false, true, true⟩ := by
  unfold oscOps
  show (((OscWriter.init cap).step (.begin addr)).run
    (args.map OscArg.op ++ [.endMsg])) = _
  have hbegin : (OscWriter.init cap).step (.begin addr)
      = ⟨cap, [], [], addr, false, true, false⟩ := by
    show (OscWriter.init cap).begin_message addr = _
    unfold OscWriter.begin_message OscWriter.init
    rw [if_neg (by simp), if_neg (by simp [h1, h2])]
  rw [hbegin, OscWriter.run_append]
  rw [run_add_ops args _ rfl rfl rfl (by simpa using h4)]
  show (⟨cap, [], ([] : List OscArg) ++ args, addr, false, true, false⟩
    : OscWriter).end_message = _
  rw [end_message_fits rfl rfl rfl (by
    dsimp only
    simp only [oscEncodedSize] at h6
    simpa using h6)]
  simp [oscEncodedBytes, List.append_assoc]

/-! ### C1: decoder on the closed form -/

theorem osc_decode (addr : List Nat) (args : List OscArg)
    (h1 : addr ≠ []) (h2 : addr.head? = some 47)
    (h3 : ∀ b ∈ addr, b ≠ 0) (h5 : ∀ a ∈ args, a.ok = true) :
    oscRead (oscEncodedBytes addr args) = some (addr, args) := by
  have hne2 : padString (typeTagString args) ++
      (args.map OscArg.bytes).flatten ≠ [] := by
    intro hc
    have hlc := congrArg List.length hc
    simp only [List.length_append, padString_length, List.length_nil] at hlc
    have := align4_ge ((typeTagString args).length + 1)
    omega
  have hne1 : padString addr ++ (padString (typeTagString args) ++
      (args.map OscArg.bytes).flatten) ≠ [] := by
    intro hc
    have hlc := congrArg List.length hc
    simp only [List.length_append, padString_length, List.length_nil] at hlc
    have := align4_ge (addr.length + 1)
    omega
  unfold oscRead oscEncodedBytes
  rw [List.append_assoc, if_neg hne1, readOscString_padString h3]
  dsimp only
  rw [if_neg (by simp [h1, h2]), if_neg hne2,
    readOscString_padString (typeTagString_ne_zero args)]
  dsimp only
  rw [if_pos (by simp [typeTagString])]
  simp only [typeTagString, List.drop_succ_cons, List.drop_zero]
  rw [parseOscArgs_encoded args h5 []]
  simp

/-- C1: for every valid message — address non-empty, starting with `/`,
null-free; at most `OSC_MAX_ARGS` arguments, each argument valid (int32
in range, float pattern 32-bit, null-free strings, blob length an int32)
— whose serialized form fits the caller-supplied buffer, decoding the
bytes produced by `begin_message`/`add_*`/`end_message`/`packet` with
the reader yields exactly the same address and the same argument list,
including negative integers, int32 extrema, zero, and empty strings and
blobs (exercised in the witness). -/
theorem osc_roundtrip_spec (cap : Nat) (addr : List Nat) (args : List OscArg)
    (h1 : addr ≠ []) (h2 : addr.head? = some 47)
    (h3 : ∀ b ∈ addr, b ≠ 0 ∧ b < 256)
    (h4 : args.length ≤ OSC_MAX_ARGS)
    (h5 : ∀ a ∈ args, a.ok = true)
    (h6 : oscEncodedSize addr args ≤ cap) :
    oscRead (((OscWriter.init cap).run (oscOps addr args)).packet)
      = some (addr, args) := by
  rw [osc_encode cap addr args h1 h2 h4 h6]
  have hp : (⟨cap, oscEncodedBytes addr args, args, addr, false, true, true⟩
      : OscWriter).packet = oscEncodedBytes addr args := by
    simp [OscWriter.packet]
  rw [hp]
  exact osc_decode addr args h1 h2 (fun b hb => (h3 b hb).1) h5

theorem osc_roundtrip_spec_witness :
    oscRead (((OscWriter.init 200).run (oscOps [47, 97]
      [.i (-5), .f 1109917696, .s [104, 105], .b [1, 2, 3], .s [], .b [],
       .i (-2147483648), .i 2147483647])).packet)
      = some ([47, 97],
        [.i (-5), .f 1109917696, .s [104, 105], .b [1, 2, 3], .s [], .b [],
         .i (-2147483648), .i 2147483647]) :=
  osc_roundtrip_spec 200 [47, 97]
    [.i (-5), .f 1109917696, .s [104, 105], .b [1, 2, 3], .s [], .b [],
     .i (-2147483648), .i 2147483647]
    (by decide) (by decide) (by decide) (by decide) (by decide) (by decide)

end Sunny
